import Mathlib

/-!
Verification of the supply-classification and preimage-encoding core of the
libra-framework tooling.

Shallow embedding of:
* `src/tools/genesis/src/supply.rs` (`Supply`, `inc_supply`,
  `get_supply_struct`), and
* `src/tools/tower/src/core/proof_preimage.rs` (`genesis_preimage`,
  `padding`).

Machine integers (`u64`) are embedded as `Nat` together with explicit
`checked_add` guards against `2^64 - 1`; a byte is a `Nat` (the code never
performs byte arithmetic).  A Rust computation that can abort is embedded as
`Except`: the two `anyhow` context errors of `get_supply_struct` and the
panic sites (`Option::unwrap` on overflow, `Option::unwrap` on a missing
account, the `panic!` in `padding`, the `panic!` on a bad hex auth key) each
get their own constructor, so that the distinct failure modes of the source
stay distinguishable in the model.
-/

namespace SupplyModel

/-- `u64::MAX`. -/
def U64_MAX : Nat := 2 ^ 64 - 1

/-- `u64::checked_add`: `some (a + b)` when the sum fits in 64 bits, `none`
on overflow. -/
def checked_add (a b : Nat) : Option Nat :=
  if a + b ≤ U64_MAX then some (a + b) else none

/-- Legacy account address; the source only compares addresses for equality,
so an opaque identifier suffices. -/
abbrev LegacyAddress := Nat

/-- The balance resource: the source reads `b.coin`. -/
structure Balance where
  coin : Nat
deriving DecidableEq

/-- The slow-wallet resource: the source reads `sl.unlocked`. -/
structure SlowWallet where
  unlocked : Nat
deriving DecidableEq

/-- The community-wallet registry resource: the source reads
`dd_wallets.list`. -/
structure CommWallet where
  list : List LegacyAddress
deriving DecidableEq

/-- One record of the recovery snapshot, with exactly the fields
`supply.rs` touches: `account` (`r.account`, an `Option` the source
unwraps), `balance` (`r.balance`), `slow_wallet` (`r.slow_wallet`),
`val_cfg` (only `r.val_cfg.is_some()` is read, so `Option Unit`), and
`comm_wallet` (`r.comm_wallet`). -/
structure LegacyRecovery where
  account : Option LegacyAddress
  balance : Option Balance
  slow_wallet : Option SlowWallet
  val_cfg : Option Unit
  comm_wallet : Option CommWallet
deriving DecidableEq

/-- The eight aggregate counters of `supply.rs`, in source order. -/
structure Supply where
  total : Nat
  normal : Nat
  validator : Nat
  validator_locked : Nat
  slow_total : Nat
  slow_locked : Nat
  slow_unlocked : Nat
  donor_directed : Nat
deriving DecidableEq

/-- The ways the supply computation can abort.  `MissingRegistryRecord`
and `MissingDonorDirectedList` embed the two `anyhow` context errors of
`get_supply_struct` ("could not find 0x0 state", "could not find list of
community wallets"); `ArithmeticOverflow` embeds the `checked_add(..)
.unwrap()` panics of `inc_supply`; `MissingAccount` embeds the
`r.account.unwrap()` panic. -/
inductive SupplyErr where
  | MissingRegistryRecord
  | MissingDonorDirectedList
  | ArithmeticOverflow
  | MissingAccount
deriving DecidableEq

/-- `amount` as computed at the top of `inc_supply`: the balance coin, or
`0` when the record has no balance. -/
def amount_of (r : LegacyRecovery) : Nat :=
  match r.balance with
  | some b => b.coin
  | none => 0

/-- `inc_supply` of `supply.rs`: one fold step of the classifier, with every
`checked_add(..).unwrap()` and the `r.account.unwrap()` made explicit. -/
def inc_supply (acc : Supply) (r : LegacyRecovery) (dd_wallet_list : List LegacyAddress) :
    Except SupplyErr Supply :=
  let amount := amount_of r
  match checked_add acc.total amount with
  | none => .error .ArithmeticOverflow
  | some total =>
    match r.account with
    | none => .error .MissingAccount
    | some account =>
      if dd_wallet_list.contains account then
        match checked_add acc.donor_directed amount with
        | none => .error .ArithmeticOverflow
        | some donor_directed =>
          .ok { acc with total := total, donor_directed := donor_directed }
      else
        match r.slow_wallet with
        | some sl =>
          match checked_add acc.slow_total amount with
          | none => .error .ArithmeticOverflow
          | some slow_total =>
            if sl.unlocked > 0 then
              match checked_add acc.slow_unlocked amount with
              | none => .error .ArithmeticOverflow
              | some slow_unlocked =>
                if amount > sl.unlocked then
                  let locked := amount - sl.unlocked
                  match checked_add acc.slow_locked locked with
                  | none => .error .ArithmeticOverflow
                  | some slow_locked =>
                    if r.val_cfg.isSome then
                      match checked_add acc.validator amount with
                      | none => .error .ArithmeticOverflow
                      | some validator =>
                        match checked_add acc.validator_locked locked with
                        | none => .error .ArithmeticOverflow
                        | some validator_locked =>
                          .ok { acc with total := total, slow_total := slow_total, slow_unlocked := slow_unlocked, slow_locked := slow_locked, validator := validator, validator_locked := validator_locked }
                    else
                      .ok { acc with total := total, slow_total := slow_total, slow_unlocked := slow_unlocked, slow_locked := slow_locked }
                else
                  .ok { acc with total := total, slow_total := slow_total, slow_unlocked := slow_unlocked }
            else
              .ok { acc with total := total, slow_total := slow_total }
        | none =>
          match checked_add acc.normal amount with
          | none => .error .ArithmeticOverflow
          | some normal =>
            .ok { acc with total := total, normal := normal }

/-- The `zeroth` accumulator of `get_supply_struct`. -/
def zeroth : Supply :=
  { total := 0, normal := 0, validator := 0, validator_locked := 0,
    slow_total := 0, slow_locked := 0, slow_unlocked := 0, donor_directed := 0 }

/-- `rec.iter().try_fold(zeroth, |acc, r| inc_supply(acc, r, dd))`: the
short-circuiting fold of `get_supply_struct`. -/
def fold_inc (dd : List LegacyAddress) (acc : Supply) :
    List LegacyRecovery → Except SupplyErr Supply
  | [] => .ok acc
  | r :: rest =>
    match inc_supply acc r dd with
    | .error e => .error e
    | .ok acc2 => fold_inc dd acc2 rest

/-- `get_supply_struct` of `supply.rs`: locate the registry record (the
first record whose `comm_wallet` is present), read its list, and fold
`inc_supply` over the whole sequence. -/
def get_supply_struct (rec : List LegacyRecovery) : Except SupplyErr Supply :=
  match rec.find? (fun el => el.comm_wallet.isSome) with
  | none => .error .MissingRegistryRecord
  | some found =>
    match found.comm_wallet with
    | none => .error .MissingDonorDirectedList
    | some dd_wallets => fold_inc dd_wallets.list zeroth rec

/-- Field-wise sum of two accumulators (proof vocabulary for the
commutative-fold analysis; not part of the source). -/
def add_supply (a b : Supply) : Supply :=
  { total := a.total + b.total, normal := a.normal + b.normal,
    validator := a.validator + b.validator,
    validator_locked := a.validator_locked + b.validator_locked,
    slow_total := a.slow_total + b.slow_total,
    slow_locked := a.slow_locked + b.slow_locked,
    slow_unlocked := a.slow_unlocked + b.slow_unlocked,
    donor_directed := a.donor_directed + b.donor_directed }

/-- Whether the record's (unwrapped) account is on the donor-directed
list, as tested by `inc_supply`; `false` when the account is absent (in
which case `inc_supply` aborts before using it). -/
def dd_member (r : LegacyRecovery) (dd : List LegacyAddress) : Bool :=
  match r.account with
  | some a => dd.contains a
  | none => false

/-- The exact amount a single record adds to each counter in a successful
`inc_supply` step.  The increments depend only on the record and the
donor-directed list, never on the accumulator — this is what makes the
fold order-insensitive. -/
def delta (r : LegacyRecovery) (dd : List LegacyAddress) : Supply :=
  let amount := amount_of r
  if dd_member r dd then
    { total := amount, normal := 0, validator := 0, validator_locked := 0,
      slow_total := 0, slow_locked := 0, slow_unlocked := 0, donor_directed := amount }
  else
    match r.slow_wallet with
    | some sl =>
      { total := amount, normal := 0,
        validator := if sl.unlocked > 0 ∧ amount > sl.unlocked ∧ r.val_cfg.isSome then amount else 0,
        validator_locked := if sl.unlocked > 0 ∧ amount > sl.unlocked ∧ r.val_cfg.isSome then amount - sl.unlocked else 0,
        slow_total := amount,
        slow_locked := if sl.unlocked > 0 ∧ amount > sl.unlocked then amount - sl.unlocked else 0,
        slow_unlocked := if sl.unlocked > 0 then amount else 0,
        donor_directed := 0 }
    | none =>
      { total := amount, normal := amount, validator := 0, validator_locked := 0,
        slow_total := 0, slow_locked := 0, slow_unlocked := 0, donor_directed := 0 }

/-- Sum of the per-record increments over a record sequence. -/
def sum_deltas (dd : List LegacyAddress) : List LegacyRecovery → Supply
  | [] => zeroth
  | r :: rest => add_supply (delta r dd) (sum_deltas dd rest)

/-- Sum of every record's `amount` (balance coin or 0). -/
def sum_amounts : List LegacyRecovery → Nat
  | [] => 0
  | r :: rest => amount_of r + sum_amounts rest

/-- Every counter fits in a `u64` (true of any accumulator the source can
actually hold). -/
def bounded (s : Supply) : Prop :=
  s.total ≤ U64_MAX ∧ s.normal ≤ U64_MAX ∧ s.validator ≤ U64_MAX ∧
  s.validator_locked ≤ U64_MAX ∧ s.slow_total ≤ U64_MAX ∧
  s.slow_locked ≤ U64_MAX ∧ s.slow_unlocked ≤ U64_MAX ∧
  s.donor_directed ≤ U64_MAX

/-- The partition-and-bounds invariant of the spec (section 8):
`total = normal + slow_total + donor_directed`, `slow_locked ≤ slow_total`,
`slow_unlocked ≤ slow_total`, `validator_locked ≤ slow_locked`,
`validator ≤ slow_total`. -/
def supply_inv (s : Supply) : Prop :=
  s.total = s.normal + s.slow_total + s.donor_directed ∧
  s.slow_locked ≤ s.slow_total ∧ s.slow_unlocked ≤ s.slow_total ∧
  s.validator_locked ≤ s.slow_locked ∧ s.validator ≤ s.slow_total

/-- The per-record policy exactly as the specification words it (spec
section 4.2), over the spec data model fields: `amount = balance_amount
or 0` is added to `total`; a donor-directed `address` adds the amount to
`donor_directed` only; else present `slow_wallet_info` adds it to
`slow_total`, with `slow_unlocked` increased by the amount only when
`unlocked_amount > 0`, `slow_locked` increased by
`amount - unlocked_amount` when additionally `amount > unlocked_amount`,
and `validator`/`validator_locked` increased by the amount/the locked
part when additionally `validator_config_present`; else the amount is
`normal`.  Written from the spec sentences, for comparison with
`inc_supply`. -/
def spec_step (acc : Supply) (address : LegacyAddress) (balance_amount : Option Nat)
    (slow_wallet_info : Option Nat) (validator_config_present : Bool)
    (donor_directed_set : List LegacyAddress) : Supply :=
  let amount := balance_amount.getD 0
  let acc1 := { acc with total := acc.total + amount }
  if donor_directed_set.contains address then
    { acc1 with donor_directed := acc1.donor_directed + amount }
  else
    match slow_wallet_info with
    | some unlocked_amount =>
      let acc2 := { acc1 with slow_total := acc1.slow_total + amount }
      if unlocked_amount > 0 then
        let acc3 := { acc2 with slow_unlocked := acc2.slow_unlocked + amount }
        if amount > unlocked_amount then
          let locked := amount - unlocked_amount
          let acc4 := { acc3 with slow_locked := acc3.slow_locked + locked }
          if validator_config_present then
            { acc4 with validator := acc4.validator + amount, validator_locked := acc4.validator_locked + locked }
          else acc4
        else acc3
      else acc2
    | none => { acc1 with normal := acc1.normal + amount }

/-- Scenario A, registry record: carries the donor-directed list `[1]`
(address `1` plays `X`), no balance, no slow-wallet info. -/
def scA_reg : LegacyRecovery :=
  { account := some 4, balance := none, slow_wallet := none, val_cfg := none,
    comm_wallet := some { list := [1] } }

/-- Scenario A, record `(X, amount = 100)` with `X` donor-directed. -/
def scA_x : LegacyRecovery :=
  { account := some 1, balance := some { coin := 100 }, slow_wallet := none,
    val_cfg := none, comm_wallet := none }

/-- Scenario A, record `(Y, amount = 50, no slow info)`. -/
def scA_y : LegacyRecovery :=
  { account := some 2, balance := some { coin := 50 }, slow_wallet := none,
    val_cfg := none, comm_wallet := none }

/-- Scenario A, record `(Z, amount = 200, slow_wallet_info {unlocked = 50})`. -/
def scA_z : LegacyRecovery :=
  { account := some 3, balance := some { coin := 200 },
    slow_wallet := some { unlocked := 50 }, val_cfg := none, comm_wallet := none }

/-- The Scenario A record sequence. -/
def scenarioA : List LegacyRecovery := [scA_reg, scA_x, scA_y, scA_z]

/-- The Supply that Scenario A is specified to produce:
`total = 350, normal = 50, validator = 0, validator_locked = 0,
slow_total = 200, slow_locked = 150, slow_unlocked = 200,
donor_directed = 100`. -/
def scenarioA_supply : Supply :=
  { total := 350, normal := 50, validator := 0, validator_locked := 0,
    slow_total := 200, slow_locked := 150, slow_unlocked := 200,
    donor_directed := 100 }

/-- A permutation of Scenario A (records `X` and `Y` swapped). -/
def scenarioA_swapped : List LegacyRecovery := [scA_reg, scA_y, scA_x, scA_z]

/-- Registry record carrying list `[1]` (first in `c3_l1`). -/
def c3_regA : LegacyRecovery :=
  { account := some 10, balance := none, slow_wallet := none, val_cfg := none,
    comm_wallet := some { list := [1] } }

/-- A second registry record carrying the empty list. -/
def c3_regB : LegacyRecovery :=
  { account := some 11, balance := none, slow_wallet := none, val_cfg := none,
    comm_wallet := some { list := [] } }

/-- A record whose address `1` is donor-directed according to `c3_regA`
but not according to `c3_regB`. -/
def c3_recX : LegacyRecovery :=
  { account := some 1, balance := some { coin := 100 }, slow_wallet := none,
    val_cfg := none, comm_wallet := none }

def c3_l1 : List LegacyRecovery := [c3_regA, c3_regB, c3_recX]

def c3_l2 : List LegacyRecovery := [c3_regB, c3_regA, c3_recX]

/-- A sequence with no registry record whose two balances sum to
`2 * u64::MAX`: the claim C4 predicts `ArithmeticOverflow` on it. -/
def c4_no_registry : List LegacyRecovery :=
  [ { account := some 1, balance := some { coin := U64_MAX }, slow_wallet := none,
      val_cfg := none, comm_wallet := none },
    { account := some 2, balance := some { coin := U64_MAX }, slow_wallet := none,
      val_cfg := none, comm_wallet := none } ]

/-- A registry record plus two `u64::MAX` balances: overflow with the
registry present. -/
def c4_with_registry : List LegacyRecovery :=
  [ { account := some 9, balance := none, slow_wallet := none, val_cfg := none,
      comm_wallet := some { list := [] } },
    { account := some 1, balance := some { coin := U64_MAX }, slow_wallet := none,
      val_cfg := none, comm_wallet := none },
    { account := some 2, balance := some { coin := U64_MAX }, slow_wallet := none,
      val_cfg := none, comm_wallet := none } ]

/-- A record with an absent account and no registry record. -/
def c9_no_account : LegacyRecovery :=
  { account := none, balance := some { coin := 5 }, slow_wallet := none,
    val_cfg := none, comm_wallet := none }

/-- A registry record followed by a record with an absent account. -/
def c9_with_registry : List LegacyRecovery :=
  [ { account := some 9, balance := none, slow_wallet := none, val_cfg := none,
      comm_wallet := some { list := [] } },
    c9_no_account ]

end SupplyModel

namespace TowerModel

/-- The failure modes of the preimage encoder.  `InvalidHexAuthKey` embeds
the `panic!("Invalid 0L Auth Key: ..")` on a hex-decode failure;
`FieldTooLong` embeds the `panic!("Message is longer than {} bytes. Got
{} bytes", ..)` of `padding`, carrying the actual and maximum lengths the
message states; `LengthInvariantViolation` embeds the two `assert_eq!`
postconditions on the total length. -/
inductive TowerErr where
  | InvalidHexAuthKey
  | FieldTooLong (actual : Nat) (limit : Nat)
  | LengthInvariantViolation
deriving DecidableEq

/-- `padding` of `proof_preimage.rs`: left-zero-pad `statement_bytes` to
exactly `limit` bytes, aborting when the input is longer than `limit`
(the source's three match arms, in source order). -/
def padding (statement_bytes : List Nat) (limit : Nat) :
    Except TowerErr (List Nat) :=
  if statement_bytes.length > limit then
    .error (.FieldTooLong statement_bytes.length limit)
  else if statement_bytes.length < limit then
    .ok (List.replicate (limit - statement_bytes.length) 0 ++ statement_bytes)
  else
    .ok statement_bytes

/-- The value of one hex digit, as `hex::decode` reads it. -/
def hexVal (c : Char) : Option Nat :=
  if '0' ≤ c ∧ c ≤ '9' then some (c.toNat - '0'.toNat)
  else if 'a' ≤ c ∧ c ≤ 'f' then some (c.toNat - 'a'.toNat + 10)
  else if 'A' ≤ c ∧ c ≤ 'F' then some (c.toNat - 'A'.toNat + 10)
  else none

/-- `hex::decode` (external crate, standard semantics): an even-length
string of hex digits decodes pairwise to bytes; anything else fails. -/
def hex_decode : List Char → Option (List Nat)
  | [] => some []
  | c1 :: c2 :: rest =>
    match hexVal c1, hexVal c2, hex_decode rest with
    | some hi, some lo, some bytes => some ((16 * hi + lo) :: bytes)
    | _, _, _ => none
  | [_] => none

/-- The decimal ASCII bytes of an integer, as `to_string().as_bytes()`
renders it. -/
def decimal_ascii (n : Nat) : List Nat :=
  (toString n).data.map Char.toNat

/-- `write_u64::<LittleEndian>`: the eight little-endian bytes of a
64-bit value. -/
def u64_le_bytes (n : Nat) : List Nat :=
  [n % 256, n / 256 % 256, n / 256 ^ 2 % 256, n / 256 ^ 3 % 256,
   n / 256 ^ 4 % 256, n / 256 ^ 5 % 256, n / 256 ^ 6 % 256, n / 256 ^ 7 % 256]

/-- Modelled from the spec: the already-resolved profile/config data the
encoder reads (spec section 3, ProfileConfig).  `AppCfg`/`get_profile`
live outside `src/`; per the spec, `auth_key` is a hex-encoded string,
`default_chain_id` an integer rendered in decimal ASCII, and `statement`
free text carried here by its UTF-8 bytes. -/
structure AppCfg where
  auth_key : String
  default_chain_id : Nat
  statement : List Nat
deriving DecidableEq

/-- `genesis_preimage` of `proof_preimage.rs`: hex-decode the auth key and
pad to 32 bytes; pad the decimal chain id to 16 bytes; the two protocol
constants as little-endian `u64`; the scheme byte `1`; the 64-byte
deprecated tower link (empty, hence all-zero); the statement padded to
895 bytes; assert the total is `32+16+8+8+1+64+895 = 1024`.  The
`iterations`/`security` protocol constants are parameters (the source
reads them from externally defined statics). -/
def genesis_preimage (cfg : AppCfg) (iterations security : Nat) :
    Except TowerErr (List Nat) :=
  match hex_decode cfg.auth_key.data with
  | none => .error .InvalidHexAuthKey
  | some key_bytes =>
  match padding key_bytes 32 with
  | .error e => .error e
  | .ok padded_key_bytes =>
  match padding (decimal_ascii cfg.default_chain_id) 16 with
  | .error e => .error e
  | .ok padded_chain_id_bytes =>
  match padding [] 64 with
  | .error e => .error e
  | .ok padded_tower_link_bytes =>
  match padding cfg.statement 895 with
  | .error e => .error e
  | .ok padded_statement_bytes =>
  let preimage := padded_key_bytes ++ padded_chain_id_bytes ++
    u64_le_bytes iterations ++ u64_le_bytes security ++ [1] ++
    padded_tower_link_bytes ++ padded_statement_bytes
  if preimage.length = 32 + 16 + 8 + 8 + 1 + 64 + 895 then
    if preimage.length = 1024 then .ok preimage
    else .error .LengthInvariantViolation
  else .error .LengthInvariantViolation

/-- The witness profile for C5: auth key `"ff"`, chain id 1, a 3-byte
statement. -/
def cfg_w : AppCfg := { auth_key := "ff", default_chain_id := 1, statement := [1, 2, 3] }

/-- The preimage the witness profile encodes to. -/
def preimage_w : List Nat :=
  (List.replicate 31 0 ++ [255]) ++ (List.replicate 15 0 ++ [49]) ++
  u64_le_bytes 2 ++ u64_le_bytes 3 ++ [1] ++ List.replicate 64 0 ++
  (List.replicate 892 0 ++ [1, 2, 3])

/-- The C8 counterexample profile: an auth key that does not hex-decode
AND a statement over 895 bytes. -/
def cfg_bad_both : AppCfg :=
  { auth_key := "zz", default_chain_id := 1, statement := List.replicate 896 7 }

/-- The C8 witness profiles: a bad hex key alone, and a valid key with an
over-long statement. -/
def cfg_bad_hex : AppCfg :=
  { auth_key := "zz", default_chain_id := 1, statement := [] }

def cfg_long_statement : AppCfg :=
  { auth_key := "ff", default_chain_id := 1, statement := List.replicate 896 7 }

end TowerModel

namespace SupplyModel

theorem checked_add_eq_some {a b c : Nat} :
    checked_add a b = some c ↔ a + b ≤ U64_MAX ∧ c = a + b := by
  unfold checked_add
  split <;> simp_all [eq_comm]

theorem checked_add_of_le {a b : Nat} (h : a + b ≤ U64_MAX) :
    checked_add a b = some (a + b) := by
  unfold checked_add
  simp [h]

theorem checked_add_eq_none {a b : Nat} :
    checked_add a b = none ↔ U64_MAX < a + b := by
  unfold checked_add
  split <;> simp_all

theorem inc_supply_ok {acc s : Supply} {r : LegacyRecovery} {dd : List LegacyAddress}
    (h : inc_supply acc r dd = .ok s) :
    r.account.isSome = true ∧ s = add_supply acc (delta r dd) := by
  simp only [inc_supply] at h
  repeat' split at h
  all_goals try simp only [reduceCtorEq] at h
  all_goals
    obtain rfl : _ = s := Except.ok.inj h
    refine ⟨by simp [*], ?_⟩
    simp_all [checked_add_eq_some, delta, dd_member, add_supply]

/-- Every record adds exactly its `amount` to `total`, whatever bucket it
falls in. -/
theorem delta_total (r : LegacyRecovery) (dd : List LegacyAddress) :
    (delta r dd).total = amount_of r := by
  unfold delta
  repeat' split
  all_goals rfl

set_option maxHeartbeats 1000000 in
/-- When the account is present and every counter of the target
accumulator fits in a `u64`, the step succeeds and lands exactly on
`add_supply acc (delta r dd)`. -/
theorem inc_supply_of_bounded {acc : Supply} {r : LegacyRecovery} {dd : List LegacyAddress}
    (ha : r.account.isSome = true) (hb : bounded (add_supply acc (delta r dd))) :
    inc_supply acc r dd = .ok (add_supply acc (delta r dd)) := by
  obtain ⟨account, hacct⟩ := Option.isSome_iff_exists.mp ha
  obtain ⟨hb1, hb2, hb3, hb4, hb5, hb6, hb7, hb8⟩ := hb
  simp only [add_supply, delta_total] at hb1 hb2 hb3 hb4 hb5 hb6 hb7 hb8
  simp only [inc_supply, hacct]
  repeat' split
  all_goals simp_all [checked_add_eq_some, checked_add_eq_none, delta, dd_member, add_supply]
  all_goals try omega

/-- A successful step keeps every counter within `u64` (every mutated
counter went through `checked_add`, the rest are unchanged). -/
theorem inc_supply_bounded {acc s : Supply} {r : LegacyRecovery} {dd : List LegacyAddress}
    (hb : bounded acc) (h : inc_supply acc r dd = .ok s) : bounded s := by
  simp only [inc_supply] at h
  repeat' split at h
  all_goals try simp only [reduceCtorEq] at h
  all_goals
    obtain rfl : _ = s := Except.ok.inj h
    simp_all [checked_add_eq_some, bounded]

/-- The only failures of a step: an overflow panic, or the missing-account
panic (in which case the record indeed has no account). -/
theorem inc_supply_error {acc : Supply} {r : LegacyRecovery} {dd : List LegacyAddress}
    {e : SupplyErr} (h : inc_supply acc r dd = .error e) :
    e = .ArithmeticOverflow ∨ (e = .MissingAccount ∧ r.account = none) := by
  simp only [inc_supply] at h
  repeat' split at h
  all_goals simp_all

/-- A successful step grows `total` by exactly the record amount and keeps
it within `u64`. -/
theorem inc_supply_total {acc s : Supply} {r : LegacyRecovery} {dd : List LegacyAddress}
    (h : inc_supply acc r dd = .ok s) :
    s.total = acc.total + amount_of r ∧ s.total ≤ U64_MAX := by
  simp only [inc_supply] at h
  repeat' split at h
  all_goals try simp only [reduceCtorEq] at h
  all_goals
    obtain rfl : _ = s := Except.ok.inj h
    simp_all [checked_add_eq_some]

theorem add_supply_zero (a : Supply) : add_supply a zeroth = a := by
  cases a
  simp [add_supply, zeroth]

theorem zero_add_supply (a : Supply) : add_supply zeroth a = a := by
  cases a
  simp [add_supply, zeroth]

theorem add_supply_assoc (a b c : Supply) :
    add_supply (add_supply a b) c = add_supply a (add_supply b c) := by
  simp [add_supply, Nat.add_assoc]

theorem add_supply_comm (a b : Supply) : add_supply a b = add_supply b a := by
  simp [add_supply, Nat.add_comm]

/-- A successful fold finds every account present and sums the per-record
increments. -/
theorem fold_inc_ok {dd : List LegacyAddress} {acc s : Supply} {recs : List LegacyRecovery}
    (h : fold_inc dd acc recs = .ok s) :
    (∀ r ∈ recs, r.account.isSome = true) ∧ s = add_supply acc (sum_deltas dd recs) := by
  induction recs generalizing acc with
  | nil =>
    simp only [fold_inc] at h
    obtain rfl : acc = s := Except.ok.inj h
    simp [sum_deltas, add_supply_zero]
  | cons r rest ih =>
    simp only [fold_inc] at h
    cases hstep : inc_supply acc r dd with
    | error e => simp only [hstep] at h; exact absurd h (by simp)
    | ok acc2 =>
      simp only [hstep] at h
      obtain ⟨ha, rfl⟩ := inc_supply_ok hstep
      obtain ⟨hall, rfl⟩ := ih h
      refine ⟨?_, by simp [sum_deltas, add_supply_assoc]⟩
      intro x hx
      rcases List.mem_cons.mp hx with rfl | hx
      · exact ha
      · exact hall x hx

/-- A successful fold keeps every counter within `u64`. -/
theorem fold_inc_bounded {dd : List LegacyAddress} {acc s : Supply} {recs : List LegacyRecovery}
    (hb : bounded acc) (h : fold_inc dd acc recs = .ok s) : bounded s := by
  induction recs generalizing acc with
  | nil =>
    simp only [fold_inc] at h
    obtain rfl : acc = s := Except.ok.inj h
    exact hb
  | cons r rest ih =>
    simp only [fold_inc] at h
    cases hstep : inc_supply acc r dd with
    | error e => simp only [hstep] at h; exact absurd h (by simp)
    | ok acc2 =>
      simp only [hstep] at h
      exact ih (inc_supply_bounded hb hstep) h

theorem bounded_of_add_left {a b c : Supply}
    (h : bounded (add_supply a (add_supply b c))) : bounded (add_supply a b) := by
  simp only [bounded, add_supply] at *
  omega

/-- When every account is present and the target totals fit in `u64`, the
fold succeeds and lands on the sum of increments. -/
theorem fold_inc_of_bounded {dd : List LegacyAddress} {acc : Supply} {recs : List LegacyRecovery}
    (ha : ∀ r ∈ recs, r.account.isSome = true)
    (hb : bounded (add_supply acc (sum_deltas dd recs))) :
    fold_inc dd acc recs = .ok (add_supply acc (sum_deltas dd recs)) := by
  induction recs generalizing acc with
  | nil => simp [fold_inc, sum_deltas, add_supply_zero]
  | cons r rest ih =>
    rw [show sum_deltas dd (r :: rest) = add_supply (delta r dd) (sum_deltas dd rest) from rfl] at hb ⊢
    have hstep : inc_supply acc r dd = .ok (add_supply acc (delta r dd)) :=
      inc_supply_of_bounded (ha r (List.mem_cons_self r rest)) (bounded_of_add_left hb)
    rw [← add_supply_assoc] at hb
    have htail := ih (fun x hx => ha x (List.mem_cons_of_mem r hx)) hb
    simp only [fold_inc, hstep, htail, add_supply_assoc]

/-- The fold can only fail with the overflow panic or the missing-account
panic, never with a registry error. -/
theorem fold_inc_error {dd : List LegacyAddress} {acc : Supply} {recs : List LegacyRecovery}
    {e : SupplyErr} (h : fold_inc dd acc recs = .error e) :
    e = .ArithmeticOverflow ∨ e = .MissingAccount := by
  induction recs generalizing acc with
  | nil => simp [fold_inc] at h
  | cons r rest ih =>
    simp only [fold_inc] at h
    cases hstep : inc_supply acc r dd with
    | error e2 =>
      simp only [hstep] at h
      obtain rfl : e2 = e := Except.error.inj h
      rcases inc_supply_error hstep with he | ⟨he, -⟩
      · exact Or.inl he
      · exact Or.inr he
    | ok acc2 =>
      simp only [hstep] at h
      exact ih h

/-- With every account present, the only possible fold failure is the
overflow panic. -/
theorem fold_inc_error_account {dd : List LegacyAddress} {acc : Supply} {recs : List LegacyRecovery}
    {e : SupplyErr} (ha : ∀ r ∈ recs, r.account.isSome = true)
    (h : fold_inc dd acc recs = .error e) : e = .ArithmeticOverflow := by
  induction recs generalizing acc with
  | nil => simp [fold_inc] at h
  | cons r rest ih =>
    simp only [fold_inc] at h
    cases hstep : inc_supply acc r dd with
    | error e2 =>
      simp only [hstep] at h
      obtain rfl : e2 = e := Except.error.inj h
      rcases inc_supply_error hstep with he | ⟨-, hnone⟩
      · exact he
      · have := ha r (List.mem_cons_self r rest)
        rw [hnone] at this
        cases this
    | ok acc2 =>
      simp only [hstep] at h
      exact ih (fun x hx => ha x (List.mem_cons_of_mem r hx)) h

/-- The increments sum `total`-wise to the sum of all record amounts. -/
theorem sum_deltas_total (dd : List LegacyAddress) (recs : List LegacyRecovery) :
    (sum_deltas dd recs).total = sum_amounts recs := by
  induction recs with
  | nil => rfl
  | cons r rest ih => simp [sum_deltas, sum_amounts, add_supply, delta_total, ih]

/-- The per-record increments are permutation-insensitive in sum. -/
theorem sum_deltas_perm {l1 l2 : List LegacyRecovery} (dd : List LegacyAddress)
    (h : l1.Perm l2) : sum_deltas dd l1 = sum_deltas dd l2 := by
  induction h with
  | nil => rfl
  | cons x h ih => simp [sum_deltas, ih]
  | swap x y l =>
    show add_supply (delta y dd) (add_supply (delta x dd) (sum_deltas dd l)) =
      add_supply (delta x dd) (add_supply (delta y dd) (sum_deltas dd l))
    rw [← add_supply_assoc, ← add_supply_assoc, add_supply_comm (delta y dd) (delta x dd)]
  | trans h1 h2 ih1 ih2 => rw [ih1, ih2]

/-- Each single record's increment satisfies the invariant: the amount
lands in exactly one of the three partition buckets, and the overlay
increments never exceed the slow ones. -/
theorem supply_inv_delta (r : LegacyRecovery) (dd : List LegacyAddress) :
    supply_inv (delta r dd) := by
  unfold supply_inv delta
  repeat' split
  all_goals simp_all
  all_goals (split_ifs <;> omega)

theorem supply_inv_add {a b : Supply} (ha : supply_inv a) (hb : supply_inv b) :
    supply_inv (add_supply a b) := by
  unfold supply_inv add_supply at *
  simp only []
  omega

theorem supply_inv_sum (dd : List LegacyAddress) (recs : List LegacyRecovery) :
    supply_inv (sum_deltas dd recs) := by
  induction recs with
  | nil => simp [sum_deltas, zeroth, supply_inv]
  | cons r rest ih => exact supply_inv_add (supply_inv_delta r dd) ih

theorem spec_step_eq_add_delta (acc : Supply) (r : LegacyRecovery)
    (dd : List LegacyAddress) (a : LegacyAddress) (hacct : r.account = some a) :
    spec_step acc a (r.balance.map Balance.coin) (r.slow_wallet.map SlowWallet.unlocked)
      r.val_cfg.isSome dd = add_supply acc (delta r dd) := by
  have hamt : (r.balance.map Balance.coin).getD 0 = amount_of r := by
    cases hb : r.balance <;> simp [amount_of, hb]
  unfold spec_step delta dd_member
  rw [hacct, hamt]
  cases hs : r.slow_wallet with
  | none =>
    simp only [Option.map]
    split_ifs <;> simp_all [add_supply]
  | some sl =>
    simp only [Option.map]
    split_ifs <;> simp_all [add_supply]

/-- C1: on every record sequence where the classification succeeds, the
returned Supply satisfies the partition identity
`total = normal + slow_total + donor_directed` and the bound invariants
`slow_locked ≤ slow_total`, `slow_unlocked ≤ slow_total`,
`validator_locked ≤ slow_locked`, `validator ≤ slow_total`. -/
theorem claim_C1_supply_invariants (recs : List LegacyRecovery) (s : Supply)
    (h : get_supply_struct recs = .ok s) :
    s.total = s.normal + s.slow_total + s.donor_directed ∧
    s.slow_locked ≤ s.slow_total ∧ s.slow_unlocked ≤ s.slow_total ∧
    s.validator_locked ≤ s.slow_locked ∧ s.validator ≤ s.slow_total := by
  unfold get_supply_struct at h
  cases hf : recs.find? (fun el => el.comm_wallet.isSome) with
  | none => simp only [hf] at h; exact absurd h (by simp)
  | some reg =>
  simp only [hf] at h
  cases hcw : reg.comm_wallet with
  | none => simp only [hcw] at h; exact absurd h (by simp)
  | some w =>
  simp only [hcw] at h
  obtain ⟨-, rfl⟩ := fold_inc_ok h
  rw [zero_add_supply]
  exact supply_inv_sum w.list recs

/-- Witness for C1 at Scenario A. -/
theorem claim_C1_witness :
    get_supply_struct scenarioA = .ok scenarioA_supply ∧
    (scenarioA_supply.total = scenarioA_supply.normal + scenarioA_supply.slow_total + scenarioA_supply.donor_directed ∧
     scenarioA_supply.slow_locked ≤ scenarioA_supply.slow_total ∧
     scenarioA_supply.slow_unlocked ≤ scenarioA_supply.slow_total ∧
     scenarioA_supply.validator_locked ≤ scenarioA_supply.slow_locked ∧
     scenarioA_supply.validator ≤ scenarioA_supply.slow_total) :=
  ⟨by rfl, claim_C1_supply_invariants scenarioA scenarioA_supply (by rfl)⟩

/-- C2: the fold step follows the spec priority policy — whenever
`inc_supply` succeeds it lands exactly where the spec-worded `spec_step`
lands — and Scenario A computes the specified Supply
`(350, 50, 0, 0, 200, 150, 200, 100)`. -/
theorem claim_C2_step_policy :
    (∀ (acc : Supply) (r : LegacyRecovery) (dd : List LegacyAddress)
       (a : LegacyAddress) (s : Supply), r.account = some a →
       inc_supply acc r dd = .ok s →
       s = spec_step acc a (r.balance.map Balance.coin)
         (r.slow_wallet.map SlowWallet.unlocked) r.val_cfg.isSome dd) ∧
    get_supply_struct scenarioA = .ok scenarioA_supply := by
  refine ⟨?_, by rfl⟩
  intro acc r dd a s hacct h
  obtain ⟨-, rfl⟩ := inc_supply_ok h
  exact (spec_step_eq_add_delta acc r dd a hacct).symm

/-- Counterexample to C3 as stated: with two registry records carrying
different lists, swapping them changes which list `find?` returns first,
and the classification of address `1` flips between `donor_directed` and
`normal`, so the two permutations yield different Supplies. -/
theorem claim_C3_counterexample :
    c3_l1.Perm c3_l2 ∧
    get_supply_struct c3_l1 = .ok ⟨100, 0, 0, 0, 0, 0, 0, 100⟩ ∧
    get_supply_struct c3_l2 = .ok ⟨100, 100, 0, 0, 0, 0, 0, 0⟩ ∧
    (get_supply_struct c3_l1 = get_supply_struct c3_l2) = False := by
  refine ⟨List.Perm.swap c3_regB c3_regA [c3_recX], by rfl, by rfl, eq_false ?_⟩
  intro hcontra
  rw [show get_supply_struct c3_l1 = .ok ⟨100, 0, 0, 0, 0, 0, 0, 100⟩ from rfl,
    show get_supply_struct c3_l2 = .ok ⟨100, 100, 0, 0, 0, 0, 0, 0⟩ from rfl] at hcontra
  simp at hcontra

/-- C3 (amended): when all records that carry the community-wallet field
carry the same list — in particular when exactly one record carries it —
the classification is permutation-invariant: a Supply obtained on one
ordering is obtained on every permutation of it.  (Each record is folded
exactly once; the counters are sums of per-record increments, so the fold
is commutative.) -/
theorem claim_C3_amended (l1 l2 : List LegacyRecovery) (hperm : l1.Perm l2)
    (huniq : ∀ r1 ∈ l1, ∀ r2 ∈ l1, r1.comm_wallet.isSome = true →
      r2.comm_wallet.isSome = true → r1.comm_wallet = r2.comm_wallet)
    (s : Supply) (h : get_supply_struct l1 = .ok s) :
    get_supply_struct l2 = .ok s := by
  unfold get_supply_struct at h ⊢
  cases hf1 : l1.find? (fun el => el.comm_wallet.isSome) with
  | none => simp only [hf1] at h; exact absurd h (by simp)
  | some reg1 =>
  simp only [hf1] at h
  cases hcw1 : reg1.comm_wallet with
  | none => simp only [hcw1] at h; exact absurd h (by simp)
  | some w1 =>
  simp only [hcw1] at h
  have hmem1 : reg1 ∈ l1 := List.mem_of_find?_eq_some hf1
  have hp1 : reg1.comm_wallet.isSome = true := by rw [hcw1]; rfl
  cases hf2 : l2.find? (fun el => el.comm_wallet.isSome) with
  | none =>
    rw [List.find?_eq_none] at hf2
    exact absurd hp1 (by simpa using hf2 reg1 (hperm.mem_iff.mp hmem1))
  | some reg2 =>
  simp only [hf2]
  have hmem2 : reg2 ∈ l1 := hperm.mem_iff.mpr (List.mem_of_find?_eq_some hf2)
  have hp2 := List.find?_some hf2
  have hsame : reg1.comm_wallet = reg2.comm_wallet := huniq reg1 hmem1 reg2 hmem2 hp1 hp2
  cases hcw2 : reg2.comm_wallet with
  | none => rw [hcw2] at hp2; cases hp2
  | some w2 =>
  simp only [hcw2]
  obtain rfl : w1 = w2 := by rw [hcw1, hcw2] at hsame; exact Option.some.inj hsame
  obtain ⟨hacc, rfl⟩ := fold_inc_ok h
  have hbnd : bounded (add_supply zeroth (sum_deltas w1.list l1)) :=
    fold_inc_bounded (by simp [bounded, zeroth]) h
  rw [sum_deltas_perm w1.list hperm] at hbnd ⊢
  exact fold_inc_of_bounded (fun x hx => hacc x (hperm.mem_iff.mpr hx)) hbnd

/-- Witness for the amended C3: the swapped Scenario A yields the same
Supply. -/
theorem claim_C3_witness :
    get_supply_struct scenarioA_swapped = .ok scenarioA_supply :=
  claim_C3_amended scenarioA scenarioA_swapped
    (List.Perm.cons scA_reg (List.Perm.swap scA_y scA_x [scA_z]))
    (by decide) scenarioA_supply (by rfl)

/-- Counterexample to C4 as stated: a record set whose balances sum beyond
`u64` but which lacks a registry record fails with
`MissingRegistryRecord`, not `ArithmeticOverflow` (the registry lookup
precedes the fold). -/
theorem claim_C4_counterexample :
    U64_MAX < sum_amounts c4_no_registry ∧
    get_supply_struct c4_no_registry = .error .MissingRegistryRecord ∧
    (get_supply_struct c4_no_registry = .error .ArithmeticOverflow) = False := by
  refine ⟨by decide, by rfl, eq_false ?_⟩
  intro hcontra
  rw [show get_supply_struct c4_no_registry = .error .MissingRegistryRecord from rfl] at hcontra
  simp at hcontra

/-- C4 (amended): when the sequence does contain a registry record and
every account is present, balances summing beyond `u64` always abort the
computation with the overflow failure, and no Supply is returned. -/
theorem claim_C4_amended (recs : List LegacyRecovery)
    (hreg : ∃ r ∈ recs, r.comm_wallet.isSome = true)
    (hacc : ∀ r ∈ recs, r.account.isSome = true)
    (hsum : U64_MAX < sum_amounts recs) :
    get_supply_struct recs = .error .ArithmeticOverflow := by
  unfold get_supply_struct
  cases hf : recs.find? (fun el => el.comm_wallet.isSome) with
  | none =>
    rw [List.find?_eq_none] at hf
    obtain ⟨r, hr, hp⟩ := hreg
    exact absurd hp (by simpa using hf r hr)
  | some reg =>
  simp only [hf]
  have hp := List.find?_some hf
  cases hcw : reg.comm_wallet with
  | none => rw [hcw] at hp; cases hp
  | some w =>
  simp only [hcw]
  cases hres : fold_inc w.list zeroth recs with
  | ok s =>
    obtain ⟨-, rfl⟩ := fold_inc_ok hres
    have hbnd := (fold_inc_bounded (by simp [bounded, zeroth]) hres).1
    rw [show (add_supply zeroth (sum_deltas w.list recs)).total
        = (sum_deltas w.list recs).total from by simp [add_supply, zeroth],
      sum_deltas_total] at hbnd
    exact absurd hbnd (not_le.mpr hsum)
  | error e =>
    rw [fold_inc_error_account hacc hres]

/-- Witness for the amended C4. -/
theorem claim_C4_witness :
    get_supply_struct c4_with_registry = .error .ArithmeticOverflow :=
  claim_C4_amended c4_with_registry (by decide) (by decide) (by decide)

/-- C6: the registry extraction fails with `MissingRegistryRecord` exactly
when no record carries the community-wallet field; and whenever some
record does, the address list of the first such record is the one the
whole fold uses.  (The `MissingDonorDirectedList` branch — field present
but list unreadable — admits no input at all in this data model; see C10.) -/
theorem claim_C6_registry (recs : List LegacyRecovery) :
    ((∀ r ∈ recs, r.comm_wallet = none) ↔
      get_supply_struct recs = .error .MissingRegistryRecord) ∧
    (∀ reg w, recs.find? (fun el => el.comm_wallet.isSome) = some reg →
      reg.comm_wallet = some w →
      get_supply_struct recs = fold_inc w.list zeroth recs) := by
  refine ⟨⟨?_, ?_⟩, ?_⟩
  · intro hall
    unfold get_supply_struct
    have hf : recs.find? (fun el => el.comm_wallet.isSome) = none := by
      rw [List.find?_eq_none]
      intro x hx
      simp [hall x hx]
    simp only [hf]
  · intro h r hr
    cases hcwr : r.comm_wallet with
    | none => rfl
    | some wr =>
      exfalso
      cases hf : recs.find? (fun el => el.comm_wallet.isSome) with
      | none =>
        rw [List.find?_eq_none] at hf
        exact absurd (show r.comm_wallet.isSome = true by rw [hcwr]; rfl) (by simpa using hf r hr)
      | some reg =>
        unfold get_supply_struct at h
        simp only [hf] at h
        have hp := List.find?_some hf
        cases hcw2 : reg.comm_wallet with
        | none => rw [hcw2] at hp; cases hp
        | some w2 =>
          simp only [hcw2] at h
          rcases fold_inc_error h with h2 | h2 <;> simp at h2
  · intro reg w hf hcw
    unfold get_supply_struct
    simp only [hf, hcw]

/-- Counterexample to C9 as stated: an input containing a record with an
absent address, but no registry record, returns the specified
`MissingRegistryRecord` error (the registry lookup precedes the fold), so
the computation does not reach the account unwrap. -/
theorem claim_C9_counterexample :
    c9_no_account.account = none ∧
    get_supply_struct [c9_no_account] = .error .MissingRegistryRecord ∧
    (get_supply_struct [c9_no_account] = .error .MissingAccount) = False := by
  refine ⟨rfl, by rfl, eq_false ?_⟩
  intro hcontra
  rw [show get_supply_struct [c9_no_account] = .error .MissingRegistryRecord from rfl] at hcontra
  simp at hcontra

/-- C9 (amended): when the input does contain a registry record, a record
with an absent address makes the whole computation abort — with the
missing-account panic, or with an overflow panic that strikes first —
and never return a Supply. -/
theorem claim_C9_amended (recs : List LegacyRecovery)
    (hreg : ∃ r ∈ recs, r.comm_wallet.isSome = true)
    (hmiss : ∃ r ∈ recs, r.account = none) :
    get_supply_struct recs = .error .MissingAccount ∨
    get_supply_struct recs = .error .ArithmeticOverflow := by
  unfold get_supply_struct
  cases hf : recs.find? (fun el => el.comm_wallet.isSome) with
  | none =>
    rw [List.find?_eq_none] at hf
    obtain ⟨r, hr, hp⟩ := hreg
    exact absurd hp (by simpa using hf r hr)
  | some reg =>
  simp only [hf]
  have hp := List.find?_some hf
  cases hcw : reg.comm_wallet with
  | none => rw [hcw] at hp; cases hp
  | some w =>
  simp only [hcw]
  cases hres : fold_inc w.list zeroth recs with
  | ok s =>
    obtain ⟨hall, -⟩ := fold_inc_ok hres
    obtain ⟨r, hr, hnone⟩ := hmiss
    have := hall r hr
    rw [hnone] at this
    cases this
  | error e =>
    rcases fold_inc_error hres with rfl | rfl
    · exact Or.inr rfl
    · exact Or.inl rfl

/-- Witness for the amended C9. -/
theorem claim_C9_witness :
    get_supply_struct c9_with_registry = .error .MissingAccount ∨
    get_supply_struct c9_with_registry = .error .ArithmeticOverflow :=
  claim_C9_amended c9_with_registry (by decide) (by decide)

/-- C10: the supply computation never fails with
`MissingDonorDirectedList`: every failure is the missing-registry error,
the overflow panic or the missing-account panic, because the registry
record is located by the very presence of its community-wallet field. -/
theorem claim_C10_no_missing_list (recs : List LegacyRecovery) (e : SupplyErr)
    (h : get_supply_struct recs = .error e) :
    e = .MissingRegistryRecord ∨ e = .ArithmeticOverflow ∨ e = .MissingAccount := by
  unfold get_supply_struct at h
  cases hf : recs.find? (fun el => el.comm_wallet.isSome) with
  | none =>
    simp only [hf] at h
    exact Or.inl (Except.error.inj h).symm
  | some reg =>
  simp only [hf] at h
  have hp := List.find?_some hf
  cases hcw : reg.comm_wallet with
  | none => rw [hcw] at hp; cases hp
  | some w =>
  simp only [hcw] at h
  exact Or.inr (fold_inc_error h)

/-- Witness for C10 at the empty sequence. -/
theorem claim_C10_witness :
    SupplyErr.MissingRegistryRecord = SupplyErr.MissingRegistryRecord ∨
    SupplyErr.MissingRegistryRecord = SupplyErr.ArithmeticOverflow ∨
    SupplyErr.MissingRegistryRecord = SupplyErr.MissingAccount :=
  claim_C10_no_missing_list [] SupplyErr.MissingRegistryRecord (by rfl)

end SupplyModel

namespace TowerModel

/-- Characterization of a successful pad: the input fits and the output is
left zero padding followed by the input (covering the equal-width case
with zero padding bytes). -/
theorem padding_ok {b : List Nat} {l : Nat} {out : List Nat} :
    padding b l = .ok out ↔
      b.length ≤ l ∧ out = List.replicate (l - b.length) 0 ++ b := by
  unfold padding
  split_ifs with h1 h2
  · simp only [reduceCtorEq, false_iff]
    intro hcon
    omega
  · simp only [Except.ok.injEq]
    constructor
    · rintro rfl
      exact ⟨by omega, rfl⟩
    · rintro ⟨-, rfl⟩
      rfl
  · have hlen : b.length = l := by omega
    have hz : l - b.length = 0 := by omega
    simp [Except.ok.injEq, hz, hlen, eq_comm]

/-- An over-long input fails with the two lengths the panic message
states. -/
theorem padding_too_long {b : List Nat} {l : Nat} (h : b.length > l) :
    padding b l = .error (.FieldTooLong b.length l) := by
  unfold padding
  rw [if_pos h]

/-- C7: `padding` fails with `FieldTooLong` (carrying the actual and the
maximum length) exactly on over-long input, returns equal-width input
unchanged, left-zero-pads shorter input, and always returns exactly
`limit` bytes on success. -/
theorem claim_C7_padding (bytes : List Nat) (limit : Nat) :
    (bytes.length > limit →
      padding bytes limit = .error (.FieldTooLong bytes.length limit)) ∧
    (bytes.length = limit → padding bytes limit = .ok bytes) ∧
    (bytes.length < limit →
      padding bytes limit = .ok (List.replicate (limit - bytes.length) 0 ++ bytes)) ∧
    (∀ out, padding bytes limit = .ok out → out.length = limit) := by
  refine ⟨padding_too_long, fun h => ?_, fun h => ?_, fun out hout => ?_⟩
  · exact padding_ok.mpr ⟨le_of_eq h, by simp [h]⟩
  · exact padding_ok.mpr ⟨le_of_lt h, rfl⟩
  · obtain ⟨hle, rfl⟩ := padding_ok.mp hout
    simp
    omega

/-- Witness for C7: one instance of each arm. -/
theorem claim_C7_witness :
    padding [5, 6, 7] 2 = .error (.FieldTooLong 3 2) ∧
    padding [5, 6] 2 = .ok [5, 6] ∧
    padding [5] 3 = .ok [0, 0, 5] ∧
    ([0, 0, 5] : List Nat).length = 3 :=
  ⟨(claim_C7_padding [5, 6, 7] 2).1 (by decide),
   (claim_C7_padding [5, 6] 2).2.1 (by rfl),
   (claim_C7_padding [5] 3).2.2.1 (by decide),
   (claim_C7_padding [5] 3).2.2.2 [0, 0, 5] (by rfl)⟩

/-- C5: a successful encode returns exactly 1024 bytes laid out as the
zero-padded 32-byte decoded auth key, the zero-padded 16-byte decimal
chain id, the two 8-byte little-endian constants, the scheme byte `1`,
64 zero reserved bytes, and the statement left-zero-padded to the final
895 bytes (so an exactly-895-byte statement appears verbatim at the end,
and a 3-byte statement is preceded by 892 zero bytes in its field). -/
theorem claim_C5_preimage_layout (cfg : AppCfg) (iterations security : Nat)
    (p key_bytes : List Nat)
    (hkey : hex_decode cfg.auth_key.data = some key_bytes)
    (h : genesis_preimage cfg iterations security = .ok p) :
    p.length = 1024 ∧
    p = (List.replicate (32 - key_bytes.length) 0 ++ key_bytes) ++
        (List.replicate (16 - (decimal_ascii cfg.default_chain_id).length) 0 ++
          decimal_ascii cfg.default_chain_id) ++
        u64_le_bytes iterations ++ u64_le_bytes security ++ [1] ++
        List.replicate 64 0 ++
        (List.replicate (895 - cfg.statement.length) 0 ++ cfg.statement) ∧
    p.drop 129 = List.replicate (895 - cfg.statement.length) 0 ++ cfg.statement := by
  have hlink : padding [] 64 = .ok (List.replicate 64 0) := by rfl
  unfold genesis_preimage at h
  simp only [hkey] at h
  cases hp1 : padding key_bytes 32 with
  | error e => simp only [hp1] at h; exact absurd h (by simp)
  | ok pk =>
  simp only [hp1] at h
  obtain ⟨hkl, rfl⟩ := padding_ok.mp hp1
  cases hp2 : padding (decimal_ascii cfg.default_chain_id) 16 with
  | error e => simp only [hp2] at h; exact absurd h (by simp)
  | ok pc =>
  simp only [hp2] at h
  obtain ⟨hcl, rfl⟩ := padding_ok.mp hp2
  simp only [hlink] at h
  cases hp4 : padding cfg.statement 895 with
  | error e => simp only [hp4] at h; exact absurd h (by simp)
  | ok ps =>
  simp only [hp4] at h
  obtain ⟨hsl, rfl⟩ := padding_ok.mp hp4
  have hlen :
      ((List.replicate (32 - key_bytes.length) 0 ++ key_bytes) ++
        (List.replicate (16 - (decimal_ascii cfg.default_chain_id).length) 0 ++
          decimal_ascii cfg.default_chain_id) ++
        u64_le_bytes iterations ++ u64_le_bytes security ++ [1] ++
        List.replicate 64 0 ++
        (List.replicate (895 - cfg.statement.length) 0 ++ cfg.statement)).length = 1024 := by
    simp [u64_le_bytes]
    omega
  rw [if_pos (by rw [hlen]), if_pos (by rw [hlen])] at h
  obtain rfl : _ = p := Except.ok.inj h
  refine ⟨hlen, rfl, ?_⟩
  have hXlen :
      ((List.replicate (32 - key_bytes.length) 0 ++ key_bytes) ++
        (List.replicate (16 - (decimal_ascii cfg.default_chain_id).length) 0 ++
          decimal_ascii cfg.default_chain_id) ++
        u64_le_bytes iterations ++ u64_le_bytes security ++ [1] ++
        List.replicate 64 0).length = 129 := by
    simp [u64_le_bytes]
    omega
  rw [List.drop_left' hXlen]

set_option maxRecDepth 100000 in
/-- Witness for C5 at the concrete profile. -/
theorem claim_C5_witness :
    preimage_w.length = 1024 ∧
    preimage_w.drop 129 = List.replicate (895 - cfg_w.statement.length) 0 ++ cfg_w.statement :=
  ⟨(claim_C5_preimage_layout cfg_w 2 3 preimage_w [255] (by rfl) (by rfl)).1,
   (claim_C5_preimage_layout cfg_w 2 3 preimage_w [255] (by rfl) (by rfl)).2.2⟩

set_option maxRecDepth 100000 in
/-- Counterexample to C8 as stated: with both defects present, the encode
fails with `InvalidHexAuthKey` — the hex decode runs first — so a
statement exceeding 895 bytes does not always yield `FieldTooLong`. -/
theorem claim_C8_counterexample :
    895 < cfg_bad_both.statement.length ∧
    genesis_preimage cfg_bad_both 0 0 = .error .InvalidHexAuthKey ∧
    (∃ a l, genesis_preimage cfg_bad_both 0 0 = .error (.FieldTooLong a l)) = False := by
  refine ⟨by simp [cfg_bad_both], by rfl, eq_false ?_⟩
  rintro ⟨a, l, hcontra⟩
  rw [show genesis_preimage cfg_bad_both 0 0 = .error .InvalidHexAuthKey from by rfl] at hcontra
  simp at hcontra

/-- C8 (amended): an auth key that does not hex-decode always fails the
encode with `InvalidHexAuthKey`; when the key does decode, a decoded key
over 32 bytes fails with `FieldTooLong` (decoded length vs 32), and —
when the key and the chain id fit their fields — a statement over 895
bytes fails with `FieldTooLong` (statement length vs 895); in every such
case no preimage is produced. -/
theorem claim_C8_amended (cfg : AppCfg) (iterations security : Nat) :
    (hex_decode cfg.auth_key.data = none →
      genesis_preimage cfg iterations security = .error .InvalidHexAuthKey) ∧
    (∀ key_bytes, hex_decode cfg.auth_key.data = some key_bytes →
      32 < key_bytes.length →
      genesis_preimage cfg iterations security =
        .error (.FieldTooLong key_bytes.length 32)) ∧
    (∀ key_bytes, hex_decode cfg.auth_key.data = some key_bytes →
      key_bytes.length ≤ 32 → (decimal_ascii cfg.default_chain_id).length ≤ 16 →
      895 < cfg.statement.length →
      genesis_preimage cfg iterations security =
        .error (.FieldTooLong cfg.statement.length 895)) := by
  refine ⟨fun hnone => ?_, fun key_bytes hkey hlong => ?_, fun key_bytes hkey hk hc hs => ?_⟩
  · unfold genesis_preimage
    simp only [hnone]
  · unfold genesis_preimage
    simp only [hkey, padding_too_long hlong]
  · unfold genesis_preimage
    simp only [hkey, padding_ok.mpr ⟨hk, rfl⟩, padding_ok.mpr ⟨hc, rfl⟩,
      show padding [] 64 = .ok (List.replicate 64 0) from by rfl,
      padding_too_long hs]

set_option maxRecDepth 100000 in
/-- Witness for the amended C8: both rejection paths at concrete
profiles. -/
theorem claim_C8_witness :
    genesis_preimage cfg_bad_hex 0 0 = .error .InvalidHexAuthKey ∧
    genesis_preimage cfg_long_statement 0 0 =
      .error (.FieldTooLong cfg_long_statement.statement.length 895) :=
  ⟨(claim_C8_amended cfg_bad_hex 0 0).1 (by rfl),
   (claim_C8_amended cfg_long_statement 0 0).2.2 [255] (by rfl) (by decide) (by decide)
     (by simp [cfg_long_statement])⟩

end TowerModel
